import Mathlib

/-!
Shallow embedding of the search code of the AI-Search-Algorithms repository.

* `MC` embeds `src/missionaries_and_cannibals/Exercise3.9.py`:
  the `MissionariesAndCannibals` problem (states `(m, c, boat)` as integer
  triples, exactly as in Python, where intermediate states may go out of
  bounds before `is_valid` rejects them), its `breadth_first_search`,
  `depth_first_search` and `a_star_search` methods.  The Python loops are
  modelled with an explicit fuel parameter; the result type
  `Option (Option (List Move))` distinguishes fuel exhaustion (`none`, a
  model artifact that never occurs for sufficient fuel) from the Python
  return value `None` (`some none`) and a solution path `some (some p)`.
  The NetworkX graph component of the Python return value is pure
  visualization output and is not modelled.
* The priority queue of `a_star_search` is the Python `heapq`, modelled
  operation by operation (`heappush`, `heappop`, `_siftdown`, `_siftup`)
  over an array, with the exact lexicographic tuple comparison Python
  applies to `(priority, state, path)` entries.
* `SP` embeds `path_cost` of `src/shortest_path/search_problem.py` over the
  real numbers (Python floats modelled as reals).
-/

namespace MC

/-- A state `(missionaries_left, cannibals_left, boat_position)`; Python
integers are modelled as `Int` since intermediate successor states may be
negative before `is_valid` rejects them. -/
abbrev MCState := Int × Int × Int

/-- An action `(missionaries_moved, cannibals_moved)`. -/
abbrev Move := Int × Int

/-- Python `self.initial_state = (3, 3, 1)`. -/
def initial_state : MCState := (3, 3, 1)

/-- Python `self.goal_state = (0, 0, 0)`. -/
def goal_state : MCState := (0, 0, 0)

/-- Method `MissionariesAndCannibals.is_valid`, line for line. -/
def is_valid (s : MCState) : Bool :=
  let m := s.1
  let c := s.2.1
  if ¬ (0 ≤ m ∧ m ≤ 3 ∧ 0 ≤ c ∧ c ≤ 3) then false
  else if m > 0 ∧ m < c then false
  else if 3 - m > 0 ∧ 3 - m < 3 - c then false
  else true

/-- Python `possible_moves = [(1, 0), (2, 0), (0, 1), (0, 2), (1, 1)]`. -/
def possible_moves : List Move := [(1, 0), (2, 0), (0, 1), (0, 2), (1, 1)]

/-- Method `MissionariesAndCannibals.get_successors`: for each possible move, the
boat direction decides whether people are subtracted from or added to the
left bank; only `is_valid` successors are kept, in move-list order. -/
def get_successors (s : MCState) : List (MCState × Move) :=
  let m := s.1
  let c := s.2.1
  let b := s.2.2
  possible_moves.filterMap fun mv =>
    let new_state : MCState :=
      if b = 1 then (m - mv.1, c - mv.2, 0) else (m + mv.1, c + mv.2, 1)
    if is_valid new_state then some (new_state, mv) else none

/-- States reachable from the initial state, as successor states only. -/
def succ_states (s : MCState) : List MCState :=
  (get_successors s).map Prod.fst

/-- The successor frontier elements generated when a search expands
`state` carrying `path`: each valid successor paired with the extended
path, in `get_successors` order. -/
def children (state : MCState) (path : List Move) :
    List (MCState × List Move) :=
  (get_successors state).map fun sa => (sa.1, path ++ [sa.2])

/-- The while loop of `breadth_first_search`.  The queue holds
`(current_state, path_taken)` pairs, popped from the front (`popleft`) and
appended at the back.  Returns the result together with the list of states
that were expanded (passed to `get_successors`), in expansion order. -/
def bfs_loop : Nat → List (MCState × List Move) → List MCState →
    Option (Option (List Move)) × List MCState
  | 0, _, _ => (none, [])
  | _ + 1, [], _ => (some none, [])
  | fuel + 1, (state, path) :: rest, visited =>
    if state = goal_state then (some (some path), [])
    else if state ∈ visited then bfs_loop fuel rest visited
    else
      let r := bfs_loop fuel (rest ++ children state path) (visited ++ [state])
      (r.1, state :: r.2)

/-- Method `MissionariesAndCannibals.breadth_first_search` (fuel 300 is ample:
the loop pops at most `1 + 5 · 16` elements). -/
def breadth_first_search : Option (Option (List Move)) :=
  (bfs_loop 300 [(initial_state, [])] []).1

/-- The while loop of `depth_first_search`.  The Python list used as a stack is
modelled with its top (the last element in Python) as the head, so `pop()` takes
the head and appending successors `s₁ … sₖ` places `sₖ` on top. -/
def dfs_loop : Nat → List (MCState × List Move) → List MCState →
    Option (Option (List Move)) × List MCState
  | 0, _, _ => (none, [])
  | _ + 1, [], _ => (some none, [])
  | fuel + 1, (state, path) :: rest, visited =>
    if state = goal_state then (some (some path), [])
    else if state ∈ visited then dfs_loop fuel rest visited
    else
      let r := dfs_loop fuel ((children state path).reverse ++ rest)
        (visited ++ [state])
      (r.1, state :: r.2)

/-- Method `MissionariesAndCannibals.depth_first_search`. -/
def depth_first_search : Option (Option (List Move)) :=
  (dfs_loop 300 [(initial_state, [])] []).1

/-- Python `<` on `(Int, Int)` tuples: lexicographic. -/
def moveLt (a b : Move) : Bool :=
  a.1 < b.1 || (a.1 = b.1 && a.2 < b.2)

/-- Python `<` on state triples: lexicographic. -/
def stateLt (a b : MCState) : Bool :=
  a.1 < b.1 || (a.1 = b.1 && (a.2.1 < b.2.1 || (a.2.1 = b.2.1 && a.2.2 < b.2.2)))

/-- Python `<` on lists of moves: lexicographic, a strict prefix is smaller. -/
def moveListLt : List Move → List Move → Bool
  | [], [] => false
  | [], _ :: _ => true
  | _ :: _, [] => false
  | a :: as, b :: bs =>
    if moveLt a b then true
    else if a = b then moveListLt as bs
    else false

/-- A `heapq` entry `(priority, state, path)` as pushed by `a_star_search`. -/
abbrev Entry := Int × MCState × List Move

/-- Python `<` on heap entries: lexicographic tuple comparison, so equal
priorities fall through to comparing the state and then the path. -/
def entryLt (a b : Entry) : Bool :=
  a.1 < b.1 ||
    (a.1 = b.1 && (stateLt a.2.1 b.2.1 ||
      (a.2.1 = b.2.1 && moveListLt a.2.2 b.2.2)))

section Heap

variable {α : Type}

/-- The while loop of `heapq._siftdown(heap, startpos, pos)`: bubble
`newitem` up while it compares below its parent.  `pos` strictly decreases
each iteration, so fuel `pos` suffices. -/
def siftdownLoop (lt : α → α → Bool) (d : α) :
    Nat → Array α → Nat → Nat → α → Array α
  | 0, heap, _, pos, newitem => heap.setD pos newitem
  | fuel + 1, heap, startpos, pos, newitem =>
    if startpos < pos then
      let parentpos := (pos - 1) / 2
      let parent := heap.getD parentpos d
      if lt newitem parent then
        siftdownLoop lt d fuel (heap.setD pos parent) startpos parentpos newitem
      else heap.setD pos newitem
    else heap.setD pos newitem

/-- Function `heapq._siftdown(heap, startpos, pos)`. -/
def siftdown (lt : α → α → Bool) (d : α) (heap : Array α)
    (startpos pos : Nat) : Array α :=
  siftdownLoop lt d pos heap startpos pos (heap.getD pos d)

/-- The while loop of `heapq._siftup`: move the smaller child up until a
leaf is reached.  `pos` at least doubles each iteration, so fuel
`heap.size` suffices. -/
def siftupLoop (lt : α → α → Bool) (d : α) :
    Nat → Array α → Nat → α → Nat → Array α
  | 0, heap, startpos, newitem, pos =>
    siftdown lt d (heap.setD pos newitem) startpos pos
  | fuel + 1, heap, startpos, newitem, pos =>
    let endpos := heap.size
    let childpos := 2 * pos + 1
    if childpos < endpos then
      let rightpos := childpos + 1
      let childpos :=
        if rightpos < endpos &&
            !(lt (heap.getD childpos d) (heap.getD rightpos d)) then rightpos
        else childpos
      siftupLoop lt d fuel (heap.setD pos (heap.getD childpos d)) startpos
        newitem childpos
    else siftdown lt d (heap.setD pos newitem) startpos pos

/-- Function `heapq._siftup(heap, pos)`. -/
def siftup (lt : α → α → Bool) (d : α) (heap : Array α) (pos : Nat) :
    Array α :=
  siftupLoop lt d heap.size heap pos (heap.getD pos d) pos

/-- Function `heapq.heappush`. -/
def heappush (lt : α → α → Bool) (d : α) (heap : Array α) (item : α) :
    Array α :=
  let heap := heap.push item
  siftdown lt d heap 0 (heap.size - 1)

/-- Function `heapq.heappop`; `none` models the `IndexError` on an empty heap, which
the search loop never triggers (it tests emptiness first). -/
def heappop (lt : α → α → Bool) (d : α) (heap : Array α) :
    Option (α × Array α) :=
  if heap.size = 0 then none
  else
    let lastelt := heap.getD (heap.size - 1) d
    let heap := heap.pop
    if heap.size = 0 then some (lastelt, heap)
    else
      let returnitem := heap.getD 0 d
      let heap := heap.setD 0 lastelt
      some (returnitem, siftup lt d heap 0)

end Heap

/-- The default entry used where Python would raise on an absent index
(never reached for in-bounds accesses). -/
def dEntry : Entry := (0, (0, 0, 0), [])

/-- The inner `heuristic` of `a_star_search`: people on the left bank. -/
def heuristic (s : MCState) : Int := s.1 + s.2.1

/-- The for loop of `a_star_search` over the successors of an expanded
`state`: each successor is pushed with priority `cost + heuristic`, where
`cost` is the length of the extended path. -/
def astar_push_children (state : MCState) (path : List Move)
    (heap : Array Entry) : Array Entry :=
  (get_successors state).foldl
    (fun h sa =>
      let new_path := path ++ [sa.2]
      let cost : Int := new_path.length
      heappush entryLt dEntry h (cost + heuristic sa.1, sa.1, new_path))
    heap

/-- The while loop of `a_star_search` over the `heapq` priority queue, with the
expanded-state log. -/
def astar_loop : Nat → Array Entry → List MCState →
    Option (Option (List Move)) × List MCState
  | 0, _, _ => (none, [])
  | fuel + 1, heap, visited =>
    match heappop entryLt dEntry heap with
    | none => (some none, [])
    | some ((_, state, path), heap) =>
      if state = goal_state then (some (some path), [])
      else if state ∈ visited then astar_loop fuel heap visited
      else
        let r := astar_loop fuel (astar_push_children state path heap)
          (visited ++ [state])
        (r.1, state :: r.2)

/-- Method `MissionariesAndCannibals.a_star_search`. -/
def a_star_search : Option (Option (List Move)) :=
  (astar_loop 300 #[(heuristic initial_state, initial_state, [])] []).1

/-- Definition `bfs_loop` instrumented with the check the specification postulates at
insertion time: it is `true` iff, throughout the run, every successor whose
state is already in the explored set (including the state just added) or
already present on the frontier is NOT appended to the queue.  The fold
walks the successors in insertion order, so each child is checked against
the frontier as it stands when that child is appended. -/
def bfs_no_dup_insert : Nat → List (MCState × List Move) → List MCState → Bool
  | 0, _, _ => true
  | _ + 1, [], _ => true
  | fuel + 1, (state, path) :: rest, visited =>
    if state = goal_state then true
    else if state ∈ visited then bfs_no_dup_insert fuel rest visited
    else
      let visited := visited ++ [state]
      let step := (get_successors state).foldl
        (fun (acc : Bool × List (MCState × List Move)) sa =>
          (acc.1 && !(sa.1 ∈ visited || sa.1 ∈ acc.2.map Prod.fst),
            acc.2 ++ [(sa.1, path ++ [sa.2])]))
        (true, rest)
      step.1 && bfs_no_dup_insert fuel step.2 visited

/-- A heap entry extended with a ghost insertion-sequence number, used only
to observe pop order; the comparison ignores it, so the heap behaves
exactly as in `a_star_search`. -/
abbrev EntryG := Int × MCState × List Move × Nat

/-- Forget the ghost insertion index. -/
def entryGCore (e : EntryG) : Entry := (e.1, e.2.1, e.2.2.1)

/-- The heap comparison on ghost-indexed entries: exactly `entryLt` on the
underlying Python tuple. -/
def entryGLt (a b : EntryG) : Bool := entryLt (entryGCore a) (entryGCore b)

/-- Default ghost entry. -/
def dEntryG : EntryG := (0, (0, 0, 0), [], 0)

/-- The loop of `a_star_search` run with ghost insertion indices, returning the
pop log: for every entry popped from the priority queue, its priority and
its insertion-sequence number, in pop order. -/
def astar_pop_log : Nat → Array EntryG → List MCState → Nat →
    List (Int × Nat)
  | 0, _, _, _ => []
  | fuel + 1, heap, visited, counter =>
    match heappop entryGLt dEntryG heap with
    | none => []
    | some ((pri, state, path, idx), heap) =>
      (pri, idx) ::
        (if state = goal_state then []
         else if state ∈ visited then astar_pop_log fuel heap visited counter
         else
           let step := (get_successors state).foldl
             (fun (acc : Array EntryG × Nat) sa =>
               let new_path := path ++ [sa.2]
               let cost : Int := new_path.length
               (heappush entryGLt dEntryG acc.1
                 (cost + heuristic sa.1, sa.1, new_path, acc.2), acc.2 + 1))
             (heap, counter)
           astar_pop_log fuel step.1 (visited ++ [state]) step.2)

/-- The pop log of the actual `a_star_search` run. -/
def a_star_log : List (Int × Nat) :=
  astar_pop_log 300 #[(heuristic initial_state, initial_state, [], 0)] [] 1

/-- Computes `true` iff the log contains two pops of equal priority where the entry
popped first was inserted later: a witness that FIFO tie-breaking was
violated (the earlier-inserted entry was still on the frontier, since it
was popped later). -/
def hasTieOrderViolation : List (Int × Nat) → Bool
  | [] => false
  | (p, i) :: rest =>
    rest.any (fun q => q.1 = p && q.2 < i) || hasTieOrderViolation rest

/-- States reachable from `s` by exactly `n` moves of the problem: a state
is in `reachIn s n` iff there is a sequence of `n` `get_successors` steps
from `s` to it.  This is the mathematical yardstick for path lengths. -/
def reachIn (s : MCState) : Nat → List MCState
  | 0 => [s]
  | n + 1 => (reachIn s n).flatMap succ_states

/-- Duplicate-free version of `reachIn`, with the same membership (proved
below), used so that reachability facts evaluate on small lists. -/
def reachInD (s : MCState) : Nat → List MCState
  | 0 => [s]
  | n + 1 => ((reachInD s n).flatMap succ_states).dedup

/-- All states reachable from the initial state (computed closure of
`succ_states` starting at `(3, 3, 1)`; closedness is proved below). -/
def reachableStates : List MCState :=
  ((List.range 14).flatMap fun n => reachInD initial_state n).dedup

end MC

namespace SP

/-- Locations of the vertices of a state space: the model keeps exactly
what `path_cost` reads, namely the `location` of each named vertex. -/
structure StateSpaceLoc where
  loc : String → ℝ × ℝ

/-- Python `math.hypot`, with floats modelled as real numbers. -/
noncomputable def hypot (x y : ℝ) : ℝ := Real.sqrt (x ^ 2 + y ^ 2)

/-- Method `ConvexPolygonPathProblem.path_cost`: the Euclidean distance
between the locations of `state1` and `state2`, plus the accumulated cost
`c`; the `action` argument is not used, exactly as in the source. -/
noncomputable def path_cost (ss : StateSpaceLoc) (c : ℝ) (state1 : String)
    (action : String) (state2 : String) : ℝ :=
  let p1 := ss.loc state1
  let p2 := ss.loc state2
  c + hypot (p2.1 - p1.1) (p2.2 - p1.2)

end SP

namespace MC

/-- Membership in `reachIn` and `reachInD` agrees. -/
theorem mem_reachInD (x s : MCState) (n : Nat) :
    x ∈ reachIn s n ↔ x ∈ reachInD s n := by
  induction n generalizing x with
  | zero => simp [reachIn, reachInD]
  | succ n ih =>
    simp only [reachIn, reachInD, List.mem_dedup, List.mem_flatMap]
    constructor
    · rintro ⟨a, ha, hx⟩
      exact ⟨a, (ih a).mp ha, hx⟩
    · rintro ⟨a, ha, hx⟩
      exact ⟨a, (ih a).mpr ha, hx⟩

/-- The computed reachable-state list, as an explicit literal. -/
theorem reachableStates_eq :
    reachableStates =
      [(0, 1, 1), (1, 1, 1), (0, 2, 1), (0, 3, 1), (2, 2, 1), (3, 1, 1),
        (3, 2, 1), (3, 3, 1), (0, 0, 0), (0, 1, 0), (0, 2, 0), (1, 1, 0),
        (3, 0, 0), (3, 2, 0), (3, 1, 0), (2, 2, 0)] := by
  decide

/-- The reachable-state list is closed under successors. -/
theorem reachableStates_closed :
    ∀ x ∈ reachableStates, ∀ y ∈ succ_states x, y ∈ reachableStates := by
  decide

/-- Every state reachable in `n` moves from the initial state lies in the
computed closure `reachableStates`. -/
theorem reachIn_subset_reachable (n : Nat) :
    ∀ x ∈ reachIn initial_state n, x ∈ reachableStates := by
  induction n with
  | zero =>
    intro x hx
    simp only [reachIn, List.mem_singleton] at hx
    subst hx
    decide
  | succ n ih =>
    intro x hx
    simp only [reachIn, List.mem_flatMap] at hx
    obtain ⟨a, ha, hx⟩ := hx
    exact reachableStates_closed a (ih a ha) x hx

/-- Any successor pair produced by `get_successors s` consists of a state
that passes `is_valid`, one of the five possible moves, and the boat sent
to the bank opposite to the branch taken. -/
theorem mem_get_successors_spec (s ns : MCState) (a : Move)
    (h : (ns, a) ∈ get_successors s) :
    is_valid ns = true ∧ a ∈ possible_moves ∧
      ns.2.2 = if s.2.2 = 1 then (0 : Int) else 1 := by
  simp only [get_successors, List.mem_filterMap] at h
  obtain ⟨mv, hmv, hf⟩ := h
  split at hf <;> rename_i hb <;> split at hf <;> rename_i hval <;>
    first
      | ( rw [Option.some.injEq, Prod.mk.injEq] at hf
          obtain ⟨hns, ha⟩ := hf
          subst ha
          subst hns
          exact ⟨hval, hmv, by simp [hb]⟩ )
      | exact absurd hf (by simp)

end MC

/-- C1: for the MissionariesAndCannibals problem with initial state
`(3, 3, 1)`, goal state `(0, 0, 0)` and the five boat moves,
`breadth_first_search` returns a solution whose action list has length
exactly 11. -/
theorem C1_bfs_solution_length_11 :
    ∃ p : List MC.Move,
      MC.breadth_first_search = some (some p) ∧ p.length = 11 := by
  refine ⟨[(0, 2), (0, 1), (0, 2), (0, 1), (2, 0), (1, 1), (2, 0), (0, 1),
    (0, 2), (1, 0), (1, 1)], ?_, rfl⟩
  decide

/-- C2: `a_star_search` with the heuristic of the sum of missionaries and
cannibals on the left bank returns a solution whose action list has the
same length as the one returned by `breadth_first_search`, namely the
minimal length 11. -/
theorem C2_astar_length_matches_bfs :
    ∃ p q : List MC.Move,
      MC.a_star_search = some (some p) ∧
        MC.breadth_first_search = some (some q) ∧
        p.length = q.length ∧ q.length = 11 := by
  refine ⟨[(0, 2), (0, 1), (0, 2), (0, 1), (2, 0), (1, 1), (2, 0), (0, 1),
      (0, 2), (0, 1), (0, 2)],
    [(0, 2), (0, 1), (0, 2), (0, 1), (2, 0), (1, 1), (2, 0), (0, 1),
      (0, 2), (1, 0), (1, 1)], ?_, ?_, rfl, rfl⟩
  · decide
  · decide

/-- C8: when the frontier is exhausted without popping a goal state, each
of the three search loops terminates normally in its next step and returns
the distinguished Python `None` (modelled `some none`) as the solution
component, not an exception: the empty-frontier case of each loop is a
plain return value. -/
theorem C8_exhausted_frontier_returns_none (fuel : Nat)
    (visited : List MC.MCState) :
    (MC.bfs_loop (fuel + 1) [] visited).1 = some none ∧
      (MC.dfs_loop (fuel + 1) [] visited).1 = some none ∧
      (MC.astar_loop (fuel + 1) #[] visited).1 = some none := by
  refine ⟨rfl, rfl, ?_⟩
  simp [MC.astar_loop, MC.heappop]

/-- C4 counterexample: the claim that a successor child whose state is
already in the explored set or already present on the frontier is not
inserted into the frontier is false for the code: `bfs_no_dup_insert`
replays the `breadth_first_search` run and checks exactly that condition at
every insertion, and the check fails (already at the second expansion the
successor `(3, 3, 1)` of `(3, 2, 0)` is appended although `(3, 3, 1)` is in
the visited set). -/
theorem C4_counterexample :
    MC.bfs_no_dup_insert 300 [(MC.initial_state, [])] [] = false := by
  decide

/-- C4 amended: successor children are inserted into the frontier
unconditionally; duplicate states are instead filtered when popped: in each
of the three loops, a popped non-goal state that is already in the visited
set is discarded without being expanded and without inserting anything. -/
theorem C4_amended_duplicates_filtered_at_pop (fuel : Nat) (s : MC.MCState)
    (p : List MC.Move) (rest : List (MC.MCState × List MC.Move))
    (visited : List MC.MCState) (hg : s ≠ MC.goal_state) (hv : s ∈ visited) :
    MC.bfs_loop (fuel + 1) ((s, p) :: rest) visited =
        MC.bfs_loop fuel rest visited ∧
      MC.dfs_loop (fuel + 1) ((s, p) :: rest) visited =
        MC.dfs_loop fuel rest visited ∧
      ∀ (heap heap2 : Array MC.Entry) (pri : Int),
        MC.heappop MC.entryLt MC.dEntry heap = some ((pri, s, p), heap2) →
        MC.astar_loop (fuel + 1) heap visited =
          MC.astar_loop fuel heap2 visited := by
  refine ⟨?_, ?_, ?_⟩
  · simp [MC.bfs_loop, hg, hv]
  · simp [MC.dfs_loop, hg, hv]
  · intro heap heap2 pri hpop
    simp only [MC.astar_loop]
    rw [hpop]
    simp [hg, hv]

/-- Witness for the amended C4, at the concrete popped state `(3, 3, 1)`
already present in the visited set. -/
theorem C4_amended_witness :
    (MC.initial_state ≠ MC.goal_state ∧
        MC.initial_state ∈ [MC.initial_state]) ∧
      MC.bfs_loop 1 [(MC.initial_state, [])] [MC.initial_state] =
        MC.bfs_loop 0 [] [MC.initial_state] ∧
      MC.dfs_loop 1 [(MC.initial_state, [])] [MC.initial_state] =
        MC.dfs_loop 0 [] [MC.initial_state] ∧
      MC.astar_loop 1 #[(6, MC.initial_state, [])] [MC.initial_state] =
        MC.astar_loop 0 #[] [MC.initial_state] := by
  have h := C4_amended_duplicates_filtered_at_pop 0 MC.initial_state [] []
    [MC.initial_state] (by decide) (by decide)
  exact ⟨⟨by decide, by decide⟩, h.1, h.2.1,
    h.2.2 #[(6, MC.initial_state, [])] #[] 6 rfl⟩

/-- C6 counterexample: in the actual `a_star_search` run, FIFO tie-breaking
among equal-priority frontier entries is violated.  `a_star_log` records,
for every entry popped from the priority queue, its priority and its
insertion-sequence number; `hasTieOrderViolation` finds two pops of equal
priority where the entry popped first was inserted later (for example, a
priority-7 entry inserted 6th pops before the priority-7 entry inserted
4th, which was on the frontier the whole time since it is popped later).
So an entry inserted earlier at equal priority is not always popped
first. -/
theorem C6_counterexample :
    MC.hasTieOrderViolation MC.a_star_log = true := by
  decide

/-- C6 amended: equal-priority ties in the `a_star_search` priority queue
are broken by the lexicographic Python tuple comparison on the remaining
entry components, the state and then the path, not by insertion order: for
entries of equal priority, the ordering relation of the heap is exactly the
lexicographic state-then-path comparison. -/
theorem C6_amended_ties_broken_lexicographically (a b : MC.Entry)
    (hp : a.1 = b.1) :
    MC.entryLt a b =
      (MC.stateLt a.2.1 b.2.1 ||
        (a.2.1 = b.2.1 && MC.moveListLt a.2.2 b.2.2)) := by
  simp [MC.entryLt, hp]

/-- Witness for the amended C6, at two concrete equal-priority entries. -/
theorem C6_amended_witness :
    ((7, (2, 2, 1), []) : MC.Entry).1 = ((7, (1, 1, 0), []) : MC.Entry).1 ∧
      MC.entryLt (7, (2, 2, 1), []) (7, (1, 1, 0), []) =
        (MC.stateLt (2, 2, 1) (1, 1, 0) ||
          (((2, 2, 1) : MC.MCState) = (1, 1, 0) && MC.moveListLt [] [])) :=
  ⟨rfl, C6_amended_ties_broken_lexicographically
    (7, (2, 2, 1), []) (7, (1, 1, 0), []) rfl⟩

/-- C9: for every accumulated cost `c` and every pair of vertices of a
state space, `ConvexPolygonPathProblem.path_cost` is at least `c`: the
incremental cost is a Euclidean distance, which is non-negative (Python
float arithmetic modelled over the reals). -/
theorem C9_path_cost_at_least_accumulated (ss : SP.StateSpaceLoc) (c : ℝ)
    (state1 action state2 : String) :
    c ≤ SP.path_cost ss c state1 action state2 := by
  unfold SP.path_cost SP.hypot
  have h := Real.sqrt_nonneg
    (((ss.loc state2).1 - (ss.loc state1).1) ^ 2 +
      ((ss.loc state2).2 - (ss.loc state1).2) ^ 2)
  simp only []
  linarith

/-- C5: in each of `breadth_first_search`, `depth_first_search` and
`a_star_search` the goal test is applied when a state is popped from the
frontier, not when it is inserted: popping the goal state returns its path
immediately, while popping any other not-yet-expanded state never returns
at that step — all of its successors, including any equal to the goal
state, are enqueued and the loop continues. -/
theorem C5_goal_test_applied_at_pop (fuel : Nat) (s : MC.MCState)
    (p : List MC.Move) (rest : List (MC.MCState × List MC.Move))
    (visited : List MC.MCState)
    (hg : s ≠ MC.goal_state) (hv : s ∉ visited) :
    (MC.bfs_loop (fuel + 1) ((MC.goal_state, p) :: rest) visited).1 =
        some (some p) ∧
      (MC.dfs_loop (fuel + 1) ((MC.goal_state, p) :: rest) visited).1 =
        some (some p) ∧
      (∀ (heap heap2 : Array MC.Entry) (pri : Int),
        MC.heappop MC.entryLt MC.dEntry heap =
            some ((pri, MC.goal_state, p), heap2) →
        (MC.astar_loop (fuel + 1) heap visited).1 = some (some p)) ∧
      MC.bfs_loop (fuel + 1) ((s, p) :: rest) visited =
        ((MC.bfs_loop fuel (rest ++ MC.children s p) (visited ++ [s])).1,
          s :: (MC.bfs_loop fuel (rest ++ MC.children s p)
            (visited ++ [s])).2) ∧
      MC.dfs_loop (fuel + 1) ((s, p) :: rest) visited =
        ((MC.dfs_loop fuel ((MC.children s p).reverse ++ rest)
            (visited ++ [s])).1,
          s :: (MC.dfs_loop fuel ((MC.children s p).reverse ++ rest)
            (visited ++ [s])).2) ∧
      ∀ (heap heap2 : Array MC.Entry) (pri : Int),
        MC.heappop MC.entryLt MC.dEntry heap = some ((pri, s, p), heap2) →
        MC.astar_loop (fuel + 1) heap visited =
          ((MC.astar_loop fuel (MC.astar_push_children s p heap2)
              (visited ++ [s])).1,
            s :: (MC.astar_loop fuel (MC.astar_push_children s p heap2)
              (visited ++ [s])).2) := by
  refine ⟨by simp [MC.bfs_loop], by simp [MC.dfs_loop], ?_, ?_, ?_, ?_⟩
  · intro heap heap2 pri hpop
    simp only [MC.astar_loop]
    rw [hpop]
    simp
  · simp [MC.bfs_loop, hg, hv]
  · simp [MC.dfs_loop, hg, hv]
  · intro heap heap2 pri hpop
    simp only [MC.astar_loop]
    rw [hpop]
    simp [hg, hv]

/-- Witness for C5, at the concrete non-goal state `(3, 3, 1)` with an
empty visited set, and singleton frontiers holding the goal state and
`(3, 3, 1)` respectively. -/
theorem C5_witness :
    (MC.initial_state ≠ MC.goal_state ∧
        MC.initial_state ∉ ([] : List MC.MCState) ∧
        MC.heappop MC.entryLt MC.dEntry #[(0, MC.goal_state, [])] =
          some ((0, MC.goal_state, []), #[]) ∧
        MC.heappop MC.entryLt MC.dEntry #[(6, MC.initial_state, [])] =
          some ((6, MC.initial_state, []), #[])) ∧
      (MC.bfs_loop 1 [(MC.goal_state, [])] []).1 = some (some []) ∧
      (MC.dfs_loop 1 [(MC.goal_state, [])] []).1 = some (some []) ∧
      (MC.astar_loop 1 #[(0, MC.goal_state, [])] []).1 = some (some []) ∧
      MC.bfs_loop 1 [(MC.initial_state, [])] [] =
        ((MC.bfs_loop 0 ([] ++ MC.children MC.initial_state [])
            ([] ++ [MC.initial_state])).1,
          MC.initial_state ::
            (MC.bfs_loop 0 ([] ++ MC.children MC.initial_state [])
              ([] ++ [MC.initial_state])).2) ∧
      MC.dfs_loop 1 [(MC.initial_state, [])] [] =
        ((MC.dfs_loop 0 ((MC.children MC.initial_state []).reverse ++ [])
            ([] ++ [MC.initial_state])).1,
          MC.initial_state ::
            (MC.dfs_loop 0 ((MC.children MC.initial_state []).reverse ++ [])
              ([] ++ [MC.initial_state])).2) ∧
      MC.astar_loop 1 #[(6, MC.initial_state, [])] [] =
        ((MC.astar_loop 0 (MC.astar_push_children MC.initial_state [] #[])
            ([] ++ [MC.initial_state])).1,
          MC.initial_state ::
            (MC.astar_loop 0 (MC.astar_push_children MC.initial_state [] #[])
              ([] ++ [MC.initial_state])).2) := by
  have h := C5_goal_test_applied_at_pop 0 MC.initial_state [] [] []
    (by decide) (by decide)
  exact ⟨⟨by decide, by decide, rfl, rfl⟩, h.1, h.2.1,
    h.2.2.1 #[(0, MC.goal_state, [])] #[] 0 rfl, h.2.2.2.1, h.2.2.2.2.1,
    h.2.2.2.2.2 #[(6, MC.initial_state, [])] #[] 6 rfl⟩

namespace MC

/-- In `bfs_loop`, every expanded state is fresh: no recorded expansion was
already in the visited set, and no state is expanded twice. -/
theorem bfs_expanded_fresh (fuel : Nat) :
    ∀ (q : List (MCState × List Move)) (visited : List MCState),
      (∀ x ∈ (bfs_loop fuel q visited).2, x ∉ visited) ∧
        (bfs_loop fuel q visited).2.Nodup := by
  induction fuel with
  | zero => intro q v; simp [bfs_loop]
  | succ fuel ih =>
    intro q v
    match q with
    | [] => simp [bfs_loop]
    | (s, p) :: rest =>
      by_cases hg : s = goal_state
      · simp [bfs_loop, hg]
      · by_cases hv : s ∈ v
        · simpa [bfs_loop, hg, hv] using ih rest v
        · have h := ih (rest ++ children s p) (v ++ [s])
          have hexp : (bfs_loop (fuel + 1) ((s, p) :: rest) v).2 =
              s :: (bfs_loop fuel (rest ++ children s p) (v ++ [s])).2 := by
            simp [bfs_loop, hg, hv]
          have hs : s ∉ (bfs_loop fuel (rest ++ children s p) (v ++ [s])).2 := by
            intro hmem
            exact h.1 s hmem (by simp)
          constructor
          · intro x hx hxv
            rw [hexp] at hx
            rcases List.mem_cons.mp hx with hx | hx
            · exact hv (hx ▸ hxv)
            · exact h.1 x hx (by simp [hxv])
          · rw [hexp]
            exact List.nodup_cons.mpr ⟨hs, h.2⟩

/-- In `dfs_loop`, every expanded state is fresh. -/
theorem dfs_expanded_fresh (fuel : Nat) :
    ∀ (q : List (MCState × List Move)) (visited : List MCState),
      (∀ x ∈ (dfs_loop fuel q visited).2, x ∉ visited) ∧
        (dfs_loop fuel q visited).2.Nodup := by
  induction fuel with
  | zero => intro q v; simp [dfs_loop]
  | succ fuel ih =>
    intro q v
    match q with
    | [] => simp [dfs_loop]
    | (s, p) :: rest =>
      by_cases hg : s = goal_state
      · simp [dfs_loop, hg]
      · by_cases hv : s ∈ v
        · simpa [dfs_loop, hg, hv] using ih rest v
        · have h := ih ((children s p).reverse ++ rest) (v ++ [s])
          have hexp : (dfs_loop (fuel + 1) ((s, p) :: rest) v).2 =
              s :: (dfs_loop fuel ((children s p).reverse ++ rest)
                (v ++ [s])).2 := by
            simp [dfs_loop, hg, hv]
          have hs : s ∉ (dfs_loop fuel ((children s p).reverse ++ rest)
              (v ++ [s])).2 := by
            intro hmem
            exact h.1 s hmem (by simp)
          constructor
          · intro x hx hxv
            rw [hexp] at hx
            rcases List.mem_cons.mp hx with hx | hx
            · exact hv (hx ▸ hxv)
            · exact h.1 x hx (by simp [hxv])
          · rw [hexp]
            exact List.nodup_cons.mpr ⟨hs, h.2⟩

/-- In `astar_loop`, every expanded state is fresh. -/
theorem astar_expanded_fresh (fuel : Nat) :
    ∀ (heap : Array Entry) (visited : List MCState),
      (∀ x ∈ (astar_loop fuel heap visited).2, x ∉ visited) ∧
        (astar_loop fuel heap visited).2.Nodup := by
  induction fuel with
  | zero => intro heap v; simp [astar_loop]
  | succ fuel ih =>
    intro heap v
    rcases hpop : heappop entryLt dEntry heap with _ | ⟨⟨pri, st, pth⟩, heap2⟩
    · simp [astar_loop, hpop]
    · by_cases hg : st = goal_state
      · simp [astar_loop, hpop, hg]
      · by_cases hv : st ∈ v
        · have hexp : (astar_loop (fuel + 1) heap v) =
              astar_loop fuel heap2 v := by
            simp only [astar_loop]
            rw [hpop]
            simp [hg, hv]
          rw [hexp]
          exact ih heap2 v
        · have h := ih (astar_push_children st pth heap2) (v ++ [st])
          have hexp : (astar_loop (fuel + 1) heap v).2 =
              st :: (astar_loop fuel (astar_push_children st pth heap2)
                (v ++ [st])).2 := by
            simp only [astar_loop]
            rw [hpop]
            simp [hg, hv]
          have hs : st ∉ (astar_loop fuel (astar_push_children st pth heap2)
              (v ++ [st])).2 := by
            intro hmem
            exact h.1 st hmem (by simp)
          constructor
          · intro x hx hxv
            rw [hexp] at hx
            rcases List.mem_cons.mp hx with hx | hx
            · exact hv (hx ▸ hxv)
            · exact h.1 x hx (by simp [hxv])
          · rw [hexp]
            exact List.nodup_cons.mpr ⟨hs, h.2⟩

end MC

/-- C7: during any single run of `breadth_first_search`,
`depth_first_search` or `a_star_search`, no state is expanded more than
once: the list of states passed to `get_successors`, recorded by each loop
in expansion order, has no duplicates — whatever the frontier and visited
set the run starts from. -/
theorem C7_no_state_expanded_twice (fuel : Nat)
    (q : List (MC.MCState × List MC.Move)) (heap : Array MC.Entry)
    (visited : List MC.MCState) :
    (MC.bfs_loop fuel q visited).2.Nodup ∧
      (MC.dfs_loop fuel q visited).2.Nodup ∧
      (MC.astar_loop fuel heap visited).2.Nodup :=
  ⟨(MC.bfs_expanded_fresh fuel q visited).2,
    (MC.dfs_expanded_fresh fuel q visited).2,
    (MC.astar_expanded_fresh fuel heap visited).2⟩

/-- C3 counterexample: the heuristic `h(m, c, b) = m + c` is NOT
admissible on the reachable state space: the state `(1, 1, 1)` is
reachable from the initial state (in 10 moves), the goal is one move away
from it (moving one missionary and one cannibal across), yet the heuristic
value there is `1 + 1 = 2 > 1`. -/
theorem C3_counterexample :
    ((1, 1, 1) : MC.MCState) ∈ MC.reachIn MC.initial_state 10 ∧
      MC.goal_state ∈ MC.reachIn ((1, 1, 1) : MC.MCState) 1 ∧
      ¬ MC.heuristic (1, 1, 1) ≤ (1 : Int) :=
  ⟨(MC.mem_reachInD _ _ _).mpr (by decide),
    (MC.mem_reachInD _ _ _).mpr (by decide), by decide⟩

/-- C3 amended: the heuristic `h(m, c, b) = m + c` never overestimates the
remaining number of moves at any state reachable from the initial state
`(3, 3, 1)` other than `(1, 1, 1)` and `(0, 2, 1)`: for every such state
and every sequence of `k` moves leading from it to the goal `(0, 0, 0)`,
the heuristic value is at most `k` — hence at most the minimal number of
moves to the goal.  At the two excluded states the heuristic value is 2
while the goal is one move away. -/
theorem C3_heuristic_admissible_except_two (s : MC.MCState) (n k : Nat)
    (hreach : s ∈ MC.reachIn MC.initial_state n)
    (hne1 : s ≠ (1, 1, 1)) (hne2 : s ≠ (0, 2, 1))
    (hgoal : MC.goal_state ∈ MC.reachIn s k) :
    MC.heuristic s ≤ (k : Int) := by
  have hS : s ∈ MC.reachableStates := MC.reachIn_subset_reachable n s hreach
  rw [MC.reachableStates_eq] at hS
  rw [MC.mem_reachInD] at hgoal
  rcases Nat.lt_or_ge k 6 with hk | hk
  · fin_cases hS <;>
      first
        | exact absurd rfl hne1
        | exact absurd rfl hne2
        | ( interval_cases k <;>
              first
                | exact absurd hgoal (by decide)
                | decide )
  · have hk6 : (6 : Int) ≤ (k : Int) := by exact_mod_cast hk
    fin_cases hS <;> simp [MC.heuristic] <;> omega

/-- Witness for the amended C3, at the initial state itself (reachable in
0 moves) and the 11-move solution to the goal. -/
theorem C3_witness :
    (MC.initial_state ∈ MC.reachIn MC.initial_state 0 ∧
        MC.initial_state ≠ ((1, 1, 1) : MC.MCState) ∧
        MC.initial_state ≠ ((0, 2, 1) : MC.MCState) ∧
        MC.goal_state ∈ MC.reachIn MC.initial_state 11) ∧
      MC.heuristic MC.initial_state ≤ (11 : Int) := by
  have h1 : MC.initial_state ∈ MC.reachIn MC.initial_state 0 := by decide
  have h2 : MC.goal_state ∈ MC.reachIn MC.initial_state 11 :=
    (MC.mem_reachInD MC.goal_state MC.initial_state 11).mpr (by decide)
  exact ⟨⟨h1, by decide, by decide, h2⟩,
    C3_heuristic_admissible_except_two MC.initial_state 0 11 h1
      (by decide) (by decide) h2⟩

/-- C10: for a state `(m, c, b)` with boat component 0 or 1, every pair
`(new_state, action)` returned by `get_successors` has a `new_state` that
passes `is_valid`, whose boat component is `1 - b`, and an `action` among
the five possible moves; consequently every state reached from any state
by one or more moves is valid. -/
theorem C10_successors_valid (m c b : Int) (ns : MC.MCState) (a : MC.Move)
    (hb : b = 0 ∨ b = 1)
    (h : (ns, a) ∈ MC.get_successors (m, c, b)) :
    MC.is_valid ns = true ∧ ns.2.2 = 1 - b ∧ a ∈ MC.possible_moves ∧
      ∀ (s : MC.MCState) (n : Nat), ∀ x ∈ MC.reachIn s n,
        x = s ∨ MC.is_valid x = true := by
  obtain ⟨hval, hmv, hboat⟩ := MC.mem_get_successors_spec (m, c, b) ns a h
  refine ⟨hval, ?_, hmv, ?_⟩
  · rcases hb with hb | hb <;> subst hb <;> simpa using hboat
  · intro s2 n
    induction n with
    | zero =>
      intro x hx
      left
      simpa [MC.reachIn] using hx
    | succ n ih =>
      intro x hx
      right
      simp only [MC.reachIn, List.mem_flatMap] at hx
      obtain ⟨y, hy, hx⟩ := hx
      simp only [MC.succ_states, List.mem_map] at hx
      obtain ⟨⟨ns2, a2⟩, hmem, hx⟩ := hx
      rw [← hx]
      exact (MC.mem_get_successors_spec y ns2 a2 hmem).1

/-- Witness for C10, at the initial state `(3, 3, 1)`, whose successor
list contains `((3, 2, 0), (0, 1))`. -/
theorem C10_witness :
    ((1 : Int) = 0 ∨ (1 : Int) = 1) ∧
      (((3, 2, 0), (0, 1)) : MC.MCState × MC.Move) ∈
        MC.get_successors (3, 3, 1) ∧
      MC.is_valid (3, 2, 0) = true ∧
      (((3, 2, 0) : MC.MCState)).2.2 = 1 - 1 ∧
      ((0, 1) : MC.Move) ∈ MC.possible_moves := by
  have h := C10_successors_valid 3 3 1 (3, 2, 0) (0, 1) (Or.inr rfl)
    (by decide)
  exact ⟨Or.inr rfl, by decide, h.1, h.2.1, h.2.2.1⟩
